import Mathlib

/-!
Verification of the `sudoku-solver-rs` core.

A shallow embedding of the repository's grid model (`src/sudoku.rs`), the
brute-force backtracking solver (`src/solvers.rs`) and the puzzle-file
parsers (`src/utils.rs`), together with proofs settling the frozen claims
about them.

Modelling conventions:
* Cell values are `u8` in the source.  The program never computes with a
  cell value — it only compares values for equality — so `Nat` embeds the
  value domain faithfully (the embedding `u8 → Nat` is injective).
* `Sudoku.score` in the source returns the `f64` ratio `count / 81.0`,
  where `count` is the number of filled cells (an integer in `0..=81`).
  The program only ever compares scores of 9×9 grids with `>`; since
  `x ↦ x / 81.0` is exactly representable-free strictly monotone on
  `0..=81` (all quotients are distinct `f64` values because consecutive
  quotients differ by `1/81`, far above the rounding error), comparing
  the `Nat` counts is equivalent.  We therefore embed `score` as the
  filled-cell count.
* Text is modelled as `List Char`.  The source splits its input on
  grapheme boundaries; for the inputs the claims are about (ASCII), one
  grapheme is one character, and a single-character grapheme satisfies
  the source's `c.len() == 1` byte-length test exactly when the character
  is ASCII, which every character the parsers accept (`0`-`9`, `.`, `u`,
  `|`, `-`, `#`, markers) is.
* Rust `Result<T, E>` becomes `Except E T`.  An out-of-bounds slice
  write, which aborts the process in Rust, is modelled by a dedicated
  `panicked` outcome where it is reachable (`parse_sudoku_puzzle_progress`).
-/

namespace SudokuRs

instance {ε α : Type} [DecidableEq ε] [DecidableEq α] : DecidableEq (Except ε α) :=
  fun a b =>
    match a, b with
    | .ok x, .ok y =>
      match decEq x y with
      | isTrue h => isTrue (congrArg Except.ok h)
      | isFalse h => isFalse fun hc => h (Except.ok.inj hc)
    | .ok _, .error _ => isFalse fun hc => Except.noConfusion hc
    | .error _, .ok _ => isFalse fun hc => Except.noConfusion hc
    | .error e, .error f =>
      match decEq e f with
      | isTrue h => isTrue (congrArg Except.error h)
      | isFalse h => isFalse fun hc => h (Except.error.inj hc)

/-- First index `i < n` (smallest, i.e. the first a forward loop meets)
with `p i = true`; `none` if there is none.  This is the shape of every
`for i in 0..n { if p(i) { return ... } }` loop in the source. -/
def firstIdx (p : Nat → Bool) : Nat → Option Nat
  | 0 => none
  | n + 1 =>
    match firstIdx p n with
    | some i => some i
    | none => if p n then some n else none

theorem firstIdx_eq_none {p : Nat → Bool} {n : Nat} :
    firstIdx p n = none ↔ ∀ i < n, p i = false := by
  induction n with
  | zero => simp [firstIdx]
  | succ n ih =>
    constructor
    · intro h i hi
      unfold firstIdx at h
      rcases hfi : firstIdx p n with _ | j
      · rw [hfi] at h
        simp only at h
        rcases Nat.lt_succ_iff_lt_or_eq.mp hi with hlt | rfl
        · exact ih.mp hfi i hlt
        · by_contra hp
          simp [Bool.not_eq_false] at hp
          simp [hp] at h
      · rw [hfi] at h
        simp at h
    · intro h
      unfold firstIdx
      have hn : firstIdx p n = none := ih.mpr fun i hi => h i (Nat.lt_succ_of_lt hi)
      rw [hn]
      simp [h n (Nat.lt_succ_self n)]

theorem firstIdx_eq_some {p : Nat → Bool} {n i : Nat} :
    firstIdx p n = some i ↔ i < n ∧ p i = true ∧ ∀ j < i, p j = false := by
  induction n with
  | zero => simp [firstIdx]
  | succ n ih =>
    constructor
    · intro h
      unfold firstIdx at h
      rcases hfi : firstIdx p n with _ | j
      · rw [hfi] at h
        simp only at h
        by_cases hp : p n
        · simp [hp] at h
          subst h
          exact ⟨Nat.lt_succ_self n, hp, firstIdx_eq_none.mp hfi⟩
        · simp [hp] at h
      · rw [hfi] at h
        simp only [Option.some.injEq] at h
        subst h
        obtain ⟨hlt, hp, hmin⟩ := ih.mp hfi
        exact ⟨Nat.lt_succ_of_lt hlt, hp, hmin⟩
    · rintro ⟨hlt, hp, hmin⟩
      unfold firstIdx
      rcases Nat.lt_succ_iff_lt_or_eq.mp hlt with hlt' | rfl
      · rw [ih.mpr ⟨hlt', hp, hmin⟩]
      · rw [firstIdx_eq_none.mpr hmin]
        simp [hp]

/-- The 9×9 grid: `pub rows : [ [ Option<u8>; 9 ]; 9 ]`, indexed
`rows[y][x]`. -/
structure Sudoku where
  rows : Fin 9 → Fin 9 → Option Nat

instance : DecidableEq Sudoku := fun a b =>
  decidable_of_iff (a.rows = b.rows)
    ⟨fun h => by cases a; cases b; simpa using h, fun h => by rw [h]⟩

/-- Reading `self.rows[y][x]` — every access the source performs is in bounds, so
the out-of-range default `none` is never observable on a source path. -/
def Sudoku.cell (s : Sudoku) (x y : Nat) : Option Nat :=
  if h : x < 9 ∧ y < 9 then s.rows ⟨y, h.2⟩ ⟨x, h.1⟩ else none

/-- Writing `self.rows[y][x] = Some(v)` (used by the solver when branching). -/
def Sudoku.setCell (s : Sudoku) (x y v : Nat) : Sudoku :=
  ⟨fun y' x' => if y'.val = y ∧ x'.val = x then some v else s.rows y' x'⟩

/-- Build a grid from a list of rows written top to bottom (`Sudoku::with_values`
with literal cell arrays); entries a row list does not mention are empty. -/
def gridOf (l : List (List (Option Nat))) : Sudoku :=
  ⟨fun y x => ((l[y.val]?.getD [])[x.val]?).getD none⟩

/-- Type `InvalidReason` of `src/sudoku.rs` (cells are `(x, y)` pairs). -/
inductive InvalidReason where
  | EmptyCell (cell : Nat × Nat)
  | RowConflict (cell conflict : Nat × Nat)
  | ColConflict (cell conflict : Nat × Nat)
  | BoxConflict (cell conflict : Nat × Nat)
deriving DecidableEq

/-- Method `Sudoku::cell_valid` of `src/sudoku.rs`: checks `value` at `(x, y)`
against the earlier row cells (`i < x`), then the earlier column cells
(`i < y`), then the earlier box cells (box-local index
`i < (y % 3) * 3 + x % 3`), returning the first conflict found. -/
def Sudoku.cell_valid (s : Sudoku) (x y : Nat) (value : Nat) :
    Except InvalidReason Unit :=
  match firstIdx (fun i => s.cell i y == some value) x with
  | some i => .error (.RowConflict (x, y) (i, y))
  | none =>
    match firstIdx (fun i => s.cell x i == some value) y with
    | some i => .error (.ColConflict (x, y) (x, i))
    | none =>
      match firstIdx
          (fun i => s.cell (3 * (x / 3) + i % 3) (3 * (y / 3) + i / 3) == some value)
          ((y % 3) * 3 + x % 3) with
      | some i => .error (.BoxConflict (x, y) (3 * (x / 3) + i % 3, 3 * (y / 3) + i / 3))
      | none => .ok ()

/-- The cells `(x, y)` in the order `well_formed` and `finished` scan
them: `for y in 0..9 { for x in 0..9 { ... } }`, i.e. row-major. -/
def scanOrder : List (Nat × Nat) :=
  ((List.range 9).map fun y => (List.range 9).map fun x => (x, y)).flatten

/-- The body of `Sudoku::well_formed`'s scan over the remaining cells:
skip empty cells, re-validate filled cells, return the first violation. -/
def Sudoku.wfCells (s : Sudoku) : List (Nat × Nat) → Except InvalidReason Unit
  | [] => .ok ()
  | (x, y) :: rest =>
    match s.cell x y with
    | none => s.wfCells rest
    | some v =>
      match s.cell_valid x y v with
      | .error reason => .error reason
      | .ok _ => s.wfCells rest

/-- Method `Sudoku::well_formed` of `src/sudoku.rs`. -/
def Sudoku.well_formed (s : Sudoku) : Except InvalidReason Unit := s.wfCells scanOrder

/-- The body of `Sudoku::finished`'s scan over the remaining cells: as
`wfCells`, but an empty cell yields `EmptyCell`. -/
def Sudoku.finCells (s : Sudoku) : List (Nat × Nat) → Except InvalidReason Unit
  | [] => .ok ()
  | (x, y) :: rest =>
    match s.cell x y with
    | none => .error (.EmptyCell (x, y))
    | some v =>
      match s.cell_valid x y v with
      | .error reason => .error reason
      | .ok _ => s.finCells rest

/-- Method `Sudoku::finished` of `src/sudoku.rs`. -/
def Sudoku.finished (s : Sudoku) : Except InvalidReason Unit := s.finCells scanOrder

/-- Method `Sudoku::score` of `src/sudoku.rs`, embedded as the filled-cell count
(the source divides this count by `81.0`; see the header note). -/
def Sudoku.score (s : Sudoku) : Nat :=
  ((List.range 9).map fun y =>
    ((List.range 9).filter fun x => (s.cell x y).isSome).length).sum

/-- Method `Sudoku::is_cell_valid`. -/
def Sudoku.is_cell_valid (s : Sudoku) (x y : Nat) (value : Nat) : Bool :=
  match s.cell_valid x y value with
  | .ok _ => true
  | .error _ => false

/-- Method `Sudoku::is_well_formed`. -/
def Sudoku.is_well_formed (s : Sudoku) : Bool :=
  match s.well_formed with
  | .ok _ => true
  | .error _ => false

/-- Method `Sudoku::is_finished`. -/
def Sudoku.is_finished (s : Sudoku) : Bool :=
  match s.finished with
  | .ok _ => true
  | .error _ => false

/-! ## The brute-force solver (`src/solvers.rs`) -/

/-- Number of empty cells of a grid; `81 - score`.  Only used for the
termination measure of the search loop (the Rust loop terminates because
each pushed candidate has strictly fewer empty cells than its parent). -/
def Sudoku.emptyCount (s : Sudoku) : Nat :=
  (Finset.univ.filter fun c : Fin 9 × Fin 9 => (s.rows c.1 c.2).isNone).card

/-- The solver's scan for the first empty cell, row-major
(`for y in 0..9 { for x in 0..9 { ... } }`); yields `(x, y)`. -/
def Sudoku.firstEmpty (s : Sudoku) : Option (Nat × Nat) :=
  (firstIdx (fun k => (s.cell (k % 9) (k / 9)).isNone) 81).map fun k => (k % 9, k / 9)

/-- The candidates the solver pushes for the empty cell `(x, y)`: for
`v in 1..=9` in ascending order, a copy with `rows[y][x] = Some(v)`
whenever `is_cell_valid(x, y, v)` holds; in push order. -/
def childGrids (g : Sudoku) (x y : Nat) : List Sudoku :=
  (List.range 9).filterMap fun i =>
    if g.is_cell_valid x y (i + 1) then some (g.setCell x y (i + 1)) else none

/-- Case split of `expand` on the first empty cell. -/
def expandAt : Option (Nat × Nat) → Sudoku → List Sudoku → List Sudoku
  | none, _, stack => stack
  | some (x, y), g, stack => (childGrids g x y).reverse ++ stack

/-- One expansion step of the search space.  The Rust `Vec` pushes at the
end and pops from the end; we model the stack as a list with its head on
top, so the pushed candidates are prepended in reverse push order (the
last pushed, `v = 9`, ends on top).  When the grid has no empty cell the
inner loops find nothing and the stack is unchanged. -/
def expand (g : Sudoku) (stack : List Sudoku) : List Sudoku :=
  expandAt g.firstEmpty g stack

theorem expand_of_none {g : Sudoku} (h : g.firstEmpty = none)
    (stack : List Sudoku) : expand g stack = stack := by
  unfold expand
  rw [h]
  rfl

theorem expand_of_some {g : Sudoku} {x y : Nat} (h : g.firstEmpty = some (x, y))
    (stack : List Sudoku) : expand g stack = (childGrids g x y).reverse ++ stack := by
  unfold expand
  rw [h]
  rfl

/-- Termination measure for the search: each grid on the stack weighs
`10 ^ emptyCount`.  Popping removes a positive weight; expanding replaces
a weight `10 ^ e` by at most nine weights `10 ^ (e - 1)`. -/
def stackMeasure (stack : List Sudoku) : Nat :=
  (stack.map fun g => 10 ^ g.emptyCount).sum

theorem cell_isNone_of_firstEmpty {g : Sudoku} {x y : Nat}
    (h : g.firstEmpty = some (x, y)) :
    x < 9 ∧ y < 9 ∧ g.cell x y = none := by
  unfold Sudoku.firstEmpty at h
  rcases hf : firstIdx (fun k => (g.cell (k % 9) (k / 9)).isNone) 81 with _ | k
  · rw [hf] at h; simp at h
  · rw [hf] at h
    simp only [Option.map_some', Option.some.injEq, Prod.mk.injEq] at h
    obtain ⟨hk, hp, -⟩ := firstIdx_eq_some.mp hf
    simp only [Option.isNone_iff_eq_none] at hp
    obtain ⟨rfl, rfl⟩ := h
    exact ⟨by omega, by omega, hp⟩

theorem emptyCount_pos_of_cell_none {g : Sudoku} {x y : Nat}
    (hx : x < 9) (hy : y < 9) (h : g.cell x y = none) : 0 < g.emptyCount := by
  rw [Sudoku.emptyCount, Finset.card_pos]
  refine ⟨(⟨y, hy⟩, ⟨x, hx⟩), ?_⟩
  simp only [Finset.mem_filter, Finset.mem_univ, true_and, Option.isNone_iff_eq_none]
  rw [Sudoku.cell, dif_pos ⟨hx, hy⟩] at h
  exact h

theorem emptyCount_setCell {g : Sudoku} {x y v : Nat}
    (hx : x < 9) (hy : y < 9) (h : g.cell x y = none) :
    (g.setCell x y v).emptyCount = g.emptyCount - 1 := by
  rw [Sudoku.cell, dif_pos ⟨hx, hy⟩] at h
  unfold Sudoku.emptyCount Sudoku.setCell
  have hmem : (⟨⟨y, hy⟩, ⟨x, hx⟩⟩ : Fin 9 × Fin 9) ∈
      Finset.univ.filter fun c : Fin 9 × Fin 9 => (g.rows c.1 c.2).isNone := by
    simp only [Finset.mem_filter, Finset.mem_univ, true_and, Option.isNone_iff_eq_none]
    exact h
  have hset :
      (Finset.univ.filter fun c : Fin 9 × Fin 9 =>
        ((if c.1.val = y ∧ c.2.val = x then some v else g.rows c.1 c.2)).isNone) =
      (Finset.univ.filter fun c : Fin 9 × Fin 9 =>
        (g.rows c.1 c.2).isNone).erase ⟨⟨y, hy⟩, ⟨x, hx⟩⟩ := by
    ext c
    simp only [Finset.mem_filter, Finset.mem_univ, true_and, Finset.mem_erase]
    by_cases hc : c.1.val = y ∧ c.2.val = x
    · have : c = ⟨⟨y, hy⟩, ⟨x, hx⟩⟩ := by
        obtain ⟨c1, c2⟩ := c
        simp only at hc
        simp [Prod.ext_iff, Fin.ext_iff, hc.1, hc.2]
      simp [hc, this]
    · have hne : c ≠ ⟨⟨y, hy⟩, ⟨x, hx⟩⟩ := by
        intro hcontra
        subst hcontra
        exact hc ⟨rfl, rfl⟩
      simp [hc, hne]
  rw [hset, Finset.card_erase_of_mem hmem]

theorem emptyCount_of_mem_childGrids {g c : Sudoku} {x y : Nat}
    (hfe : g.firstEmpty = some (x, y)) (hc : c ∈ childGrids g x y) :
    c.emptyCount = g.emptyCount - 1 := by
  obtain ⟨hx, hy, hnone⟩ := cell_isNone_of_firstEmpty hfe
  unfold childGrids at hc
  simp only [List.mem_filterMap, List.mem_range] at hc
  obtain ⟨i, -, hi⟩ := hc
  by_cases hv : g.is_cell_valid x y (i + 1)
  · rw [if_pos hv] at hi
    cases hi
    exact emptyCount_setCell hx hy hnone
  · rw [if_neg hv] at hi
    cases hi

theorem stackMeasure_expand_lt (g : Sudoku) (rest : List Sudoku) :
    stackMeasure (expand g rest) < stackMeasure (g :: rest) := by
  have hcons : stackMeasure (g :: rest) = 10 ^ g.emptyCount + stackMeasure rest := by
    simp [stackMeasure]
  rcases hfe : g.firstEmpty with _ | ⟨x, y⟩
  · rw [expand_of_none hfe, hcons]
    have : 0 < 10 ^ g.emptyCount := Nat.pos_pow_of_pos _ (by norm_num)
    omega
  · obtain ⟨hx, hy, hnone⟩ := cell_isNone_of_firstEmpty hfe
    have hpos : 0 < g.emptyCount := emptyCount_pos_of_cell_none hx hy hnone
    have happ : stackMeasure ((childGrids g x y).reverse ++ rest) =
        ((childGrids g x y).reverse.map fun c => 10 ^ c.emptyCount).sum +
          stackMeasure rest := by
      simp [stackMeasure]
    rw [expand_of_some hfe, happ, hcons]
    have hlen : (childGrids g x y).length ≤ 9 := by
      have := List.length_filterMap_le
        (fun i => if g.is_cell_valid x y (i + 1) then some (g.setCell x y (i + 1)) else none)
        (List.range 9)
      simpa [childGrids] using this
    have heach : ∀ w ∈ ((childGrids g x y).reverse.map fun c => 10 ^ c.emptyCount),
        w ≤ 10 ^ (g.emptyCount - 1) := by
      intro w hw
      simp only [List.mem_map, List.mem_reverse] at hw
      obtain ⟨c, hc, rfl⟩ := hw
      rw [emptyCount_of_mem_childGrids hfe hc]
    have hsum : ((childGrids g x y).reverse.map fun c => 10 ^ c.emptyCount).sum ≤
        9 * 10 ^ (g.emptyCount - 1) := by
      calc ((childGrids g x y).reverse.map fun c => 10 ^ c.emptyCount).sum
          ≤ ((childGrids g x y).reverse.map fun c => 10 ^ c.emptyCount).length •
              (10 ^ (g.emptyCount - 1)) := List.sum_le_card_nsmul _ _ heach
        _ = (childGrids g x y).length * 10 ^ (g.emptyCount - 1) := by
              simp [smul_eq_mul]
        _ ≤ 9 * 10 ^ (g.emptyCount - 1) := Nat.mul_le_mul_right _ hlen
    have hstep : 9 * 10 ^ (g.emptyCount - 1) < 10 ^ g.emptyCount := by
      conv_rhs => rw [show g.emptyCount = (g.emptyCount - 1) + 1 by omega]
      rw [pow_succ]
      have : 0 < 10 ^ (g.emptyCount - 1) := Nat.pos_pow_of_pos _ (by norm_num)
      omega
    omega

theorem stackMeasure_tail_lt (g : Sudoku) (rest : List Sudoku) :
    stackMeasure rest < stackMeasure (g :: rest) := by
  have : 0 < 10 ^ g.emptyCount := Nat.pos_pow_of_pos _ (by norm_num)
  simp only [stackMeasure, List.map_cons, List.sum_cons]
  omega

/-- The body of `BruteForceSolver::run_with_callback`'s `while let` loop
(`src/solvers.rs` lines 101–140).  `cb` is the callback; a Rust `FnMut`
closure's behaviour along a (deterministic) run is a function of how many
times it has been invoked and the grid it is shown, so it is modelled as
`Nat → Sudoku → Except E Bool` with `k` the number of earlier
invocations.  `best` is the `(f64, Sudoku)` pair, score embedded as the
filled-cell count.  Faithful to the source, the update `best.1 = attempt`
leaves the recorded score `best.0` unchanged.

Each iteration strictly decreases `stackMeasure stack`, so `fuel` is only
there to make the recursion structural (hence kernel-computable): by
`solveLoop_fuel_irrel`, any `fuel > stackMeasure stack` — in particular
the `stackMeasure stack + 1` that `run_with_callback` supplies — yields
the behaviour of the unbounded Rust loop, and the fuel-exhausted branch
is unreachable. -/
def solveLoop {E : Type} (cb : Nat → Sudoku → Except E Bool) (fuel k : Nat)
    (best : Nat × Sudoku) (stack : List Sudoku) : Except E (Option Sudoku) :=
  match stack with
  | [] => .ok (some best.2)
  | attempt :: rest =>
    match fuel with
    | 0 => .ok none
    | fuel' + 1 =>
      if attempt.is_well_formed then
        let best' : Nat × Sudoku :=
          if best.1 < attempt.score then (best.1, attempt) else best
        if attempt.is_finished then .ok (some best'.2)
        else
          match cb k attempt with
          | .error e => .error e
          | .ok false => .ok none
          | .ok true => solveLoop cb fuel' (k + 1) best' (expand attempt rest)
      else
        solveLoop cb fuel' k best rest

theorem solveLoop_fuel_irrel {E : Type} (cb : Nat → Sudoku → Except E Bool) :
    ∀ (f₁ : Nat) {f₂ k : Nat} {best : Nat × Sudoku} {stack : List Sudoku},
      stackMeasure stack < f₁ → stackMeasure stack < f₂ →
      solveLoop cb f₁ k best stack = solveLoop cb f₂ k best stack := by
  intro f₁
  induction f₁ using Nat.strong_induction_on with
  | _ f₁ ih =>
    intro f₂ k best stack h₁ h₂
    match stack with
    | [] => cases f₁ <;> cases f₂ <;> rfl
    | attempt :: rest =>
      have hrest := stackMeasure_tail_lt attempt rest
      have hexp := stackMeasure_expand_lt attempt rest
      match f₁, f₂ with
      | f₁' + 1, f₂' + 1 =>
        show solveLoop cb (f₁' + 1) k best (attempt :: rest) =
          solveLoop cb (f₂' + 1) k best (attempt :: rest)
        unfold solveLoop
        by_cases hwf : attempt.is_well_formed
        · simp only [hwf, if_true]
          by_cases hfin : attempt.is_finished
          · simp [hfin]
          · simp only [hfin, if_false, Bool.false_eq_true]
            rcases cb k attempt with e | b
            · rfl
            · cases b
              · rfl
              · exact ih f₁' (by omega) (by omega) (by omega)
        · simp only [hwf, if_false, Bool.false_eq_true]
          exact ih f₁' (by omega) (by omega) (by omega)

/-- Function `Solver::run_with_callback` as `BruteForceSolver` implements it:
`best` starts as the input paired with its score, the stack as the
singleton input.  The fuel `stackMeasure [sudoku] + 1` is enough for the
whole search (`solveLoop_fuel_irrel`). -/
def run_with_callback {E : Type} (cb : Nat → Sudoku → Except E Bool)
    (sudoku : Sudoku) : Except E (Option Sudoku) :=
  solveLoop cb (stackMeasure [sudoku] + 1) 0 (sudoku.score, sudoku) [sudoku]

/-! ## Characterizations of the validity checks -/

theorem beq_cell_eq_false_iff {s : Sudoku} {x y v : Nat} :
    ((s.cell x y == some v) = false) ↔ s.cell x y ≠ some v := by
  simp [beq_iff_eq]

/-- Validity `cell_valid` succeeds exactly when no earlier row, column or box cell
holds `value`. -/
theorem cell_valid_ok_iff {s : Sudoku} {x y value : Nat} :
    s.cell_valid x y value = .ok () ↔
      (∀ i < x, s.cell i y ≠ some value) ∧
      (∀ i < y, s.cell x i ≠ some value) ∧
      (∀ i < (y % 3) * 3 + x % 3,
        s.cell (3 * (x / 3) + i % 3) (3 * (y / 3) + i / 3) ≠ some value) := by
  constructor
  · intro h
    unfold Sudoku.cell_valid at h
    refine ⟨?_, ?_, ?_⟩
    · intro i hi hcell
      rcases hr : firstIdx (fun i => s.cell i y == some value) x with _ | j
      · have := firstIdx_eq_none.mp hr i hi
        rw [beq_cell_eq_false_iff] at this
        exact this hcell
      · rw [hr] at h
        simp at h
    · intro i hi hcell
      rcases hr : firstIdx (fun i => s.cell i y == some value) x with _ | j
      · rw [hr] at h
        rcases hc : firstIdx (fun i => s.cell x i == some value) y with _ | j
        · have := firstIdx_eq_none.mp hc i hi
          rw [beq_cell_eq_false_iff] at this
          exact this hcell
        · rw [hc] at h
          simp at h
      · rw [hr] at h
        simp at h
    · intro i hi hcell
      rcases hr : firstIdx (fun i => s.cell i y == some value) x with _ | j
      · rw [hr] at h
        rcases hc : firstIdx (fun i => s.cell x i == some value) y with _ | j
        · rw [hc] at h
          rcases hb : firstIdx
              (fun i => s.cell (3 * (x / 3) + i % 3) (3 * (y / 3) + i / 3) == some value)
              ((y % 3) * 3 + x % 3) with _ | j
          · have := firstIdx_eq_none.mp hb i hi
            rw [beq_cell_eq_false_iff] at this
            exact this hcell
          · rw [hb] at h
            simp at h
        · rw [hc] at h
          simp at h
      · rw [hr] at h
        simp at h
  · rintro ⟨h1, h2, h3⟩
    unfold Sudoku.cell_valid
    rw [firstIdx_eq_none.mpr fun j hj => beq_cell_eq_false_iff.mpr (h1 j hj),
      firstIdx_eq_none.mpr fun j hj => beq_cell_eq_false_iff.mpr (h2 j hj),
      firstIdx_eq_none.mpr fun j hj => beq_cell_eq_false_iff.mpr (h3 j hj)]

theorem is_cell_valid_iff {s : Sudoku} {x y value : Nat} :
    s.is_cell_valid x y value = true ↔ s.cell_valid x y value = .ok () := by
  unfold Sudoku.is_cell_valid
  rcases h : s.cell_valid x y value with r | u
  · simp
  · cases u
    simp

/-- The row conflict branch of `cell_valid`: the least conflicting
earlier row cell is reported, before the column and box are even
considered. -/
theorem cell_valid_row_conflict {s : Sudoku} {x y value i : Nat}
    (hi : i < x) (hcell : s.cell i y = some value)
    (hleast : ∀ j < i, s.cell j y ≠ some value) :
    s.cell_valid x y value = .error (.RowConflict (x, y) (i, y)) := by
  unfold Sudoku.cell_valid
  have : firstIdx (fun i => s.cell i y == some value) x = some i :=
    firstIdx_eq_some.mpr
      ⟨hi, beq_iff_eq.mpr hcell, fun j hj => beq_cell_eq_false_iff.mpr (hleast j hj)⟩
  rw [this]

/-- The column conflict branch of `cell_valid`: reported when the row
scan found nothing, before the box is considered. -/
theorem cell_valid_col_conflict {s : Sudoku} {x y value i : Nat}
    (hrow : ∀ j < x, s.cell j y ≠ some value)
    (hi : i < y) (hcell : s.cell x i = some value)
    (hleast : ∀ j < i, s.cell x j ≠ some value) :
    s.cell_valid x y value = .error (.ColConflict (x, y) (x, i)) := by
  unfold Sudoku.cell_valid
  have hr : firstIdx (fun i => s.cell i y == some value) x = none :=
    firstIdx_eq_none.mpr fun j hj => beq_cell_eq_false_iff.mpr (hrow j hj)
  have hc : firstIdx (fun i => s.cell x i == some value) y = some i :=
    firstIdx_eq_some.mpr
      ⟨hi, beq_iff_eq.mpr hcell, fun j hj => beq_cell_eq_false_iff.mpr (hleast j hj)⟩
  rw [hr, hc]

/-- The box conflict branch of `cell_valid`: reported only when both the
row scan and the column scan found nothing. -/
theorem cell_valid_box_conflict {s : Sudoku} {x y value i : Nat}
    (hrow : ∀ j < x, s.cell j y ≠ some value)
    (hcol : ∀ j < y, s.cell x j ≠ some value)
    (hi : i < (y % 3) * 3 + x % 3)
    (hcell : s.cell (3 * (x / 3) + i % 3) (3 * (y / 3) + i / 3) = some value)
    (hleast : ∀ j < i, s.cell (3 * (x / 3) + j % 3) (3 * (y / 3) + j / 3) ≠ some value) :
    s.cell_valid x y value =
      .error (.BoxConflict (x, y) (3 * (x / 3) + i % 3, 3 * (y / 3) + i / 3)) := by
  unfold Sudoku.cell_valid
  have hr : firstIdx (fun i => s.cell i y == some value) x = none :=
    firstIdx_eq_none.mpr fun j hj => beq_cell_eq_false_iff.mpr (hrow j hj)
  have hc : firstIdx (fun i => s.cell x i == some value) y = none :=
    firstIdx_eq_none.mpr fun j hj => beq_cell_eq_false_iff.mpr (hcol j hj)
  have hb : firstIdx
      (fun i => s.cell (3 * (x / 3) + i % 3) (3 * (y / 3) + i / 3) == some value)
      ((y % 3) * 3 + x % 3) = some i :=
    firstIdx_eq_some.mpr
      ⟨hi, beq_iff_eq.mpr hcell, fun j hj => beq_cell_eq_false_iff.mpr (hleast j hj)⟩
  rw [hr, hc, hb]

theorem mem_scanOrder {x y : Nat} : (x, y) ∈ scanOrder ↔ x < 9 ∧ y < 9 := by
  simp only [scanOrder, List.mem_flatten, List.mem_map, List.mem_range]
  constructor
  · rintro ⟨l, ⟨y', hy', rfl⟩, hmem⟩
    simp only [List.mem_map, List.mem_range, Prod.mk.injEq] at hmem
    obtain ⟨x', hx', rfl, rfl⟩ := hmem
    exact ⟨hx', hy'⟩
  · rintro ⟨hx, hy⟩
    exact ⟨(List.range 9).map fun x => (x, y), ⟨y, hy, rfl⟩, by
      simp only [List.mem_map, List.mem_range]
      exact ⟨x, hx, rfl⟩⟩

theorem wfCells_cons_none {s : Sudoku} {x y : Nat} {rest : List (Nat × Nat)}
    (h : s.cell x y = none) : s.wfCells ((x, y) :: rest) = s.wfCells rest := by
  show (match s.cell x y with
    | none => s.wfCells rest
    | some v =>
      match s.cell_valid x y v with
      | .error reason => .error reason
      | .ok _ => s.wfCells rest) = s.wfCells rest
  rw [h]

theorem wfCells_cons_ok {s : Sudoku} {x y v : Nat} {rest : List (Nat × Nat)}
    (h : s.cell x y = some v) (hv : s.cell_valid x y v = .ok ()) :
    s.wfCells ((x, y) :: rest) = s.wfCells rest := by
  simp only [Sudoku.wfCells, h, hv]

theorem wfCells_cons_err {s : Sudoku} {x y v : Nat} {r : InvalidReason}
    {rest : List (Nat × Nat)}
    (h : s.cell x y = some v) (hv : s.cell_valid x y v = .error r) :
    s.wfCells ((x, y) :: rest) = .error r := by
  simp only [Sudoku.wfCells, h, hv]

theorem wfCells_ok_iff {s : Sudoku} {cells : List (Nat × Nat)} :
    s.wfCells cells = .ok () ↔
      ∀ x y, (x, y) ∈ cells → ∀ v, s.cell x y = some v →
        s.cell_valid x y v = .ok () := by
  induction cells with
  | nil => simp [Sudoku.wfCells]
  | cons c rest ih =>
    obtain ⟨x, y⟩ := c
    rcases hcell : s.cell x y with _ | v
    · rw [wfCells_cons_none hcell, ih]
      constructor
      · intro h x' y' hc v hv
        rcases List.mem_cons.mp hc with hceq | hmem
        · injection hceq with h1 h2
          subst h1
          subst h2
          rw [hcell] at hv
          cases hv
        · exact h x' y' hmem v hv
      · intro h x' y' hc v hv
        exact h x' y' (List.mem_cons_of_mem _ hc) v hv
    · rcases hvalid : s.cell_valid x y v with r | u
      · rw [wfCells_cons_err hcell hvalid]
        constructor
        · intro h
          cases h
        · intro h
          have := h x y (List.mem_cons_self _ _) v hcell
          rw [hvalid] at this
          cases this
      · cases u
        rw [wfCells_cons_ok hcell hvalid, ih]
        constructor
        · intro h x' y' hc v' hv'
          rcases List.mem_cons.mp hc with hceq | hmem
          · injection hceq with h1 h2
            subst h1
            subst h2
            rw [hcell] at hv'
            cases hv'
            exact hvalid
          · exact h x' y' hmem v' hv'
        · intro h x' y' hc v' hv'
          exact h x' y' (List.mem_cons_of_mem _ hc) v' hv'

theorem finCells_cons_none {s : Sudoku} {x y : Nat} {rest : List (Nat × Nat)}
    (h : s.cell x y = none) :
    s.finCells ((x, y) :: rest) = .error (.EmptyCell (x, y)) := by
  simp only [Sudoku.finCells, h]

theorem finCells_cons_ok {s : Sudoku} {x y v : Nat} {rest : List (Nat × Nat)}
    (h : s.cell x y = some v) (hv : s.cell_valid x y v = .ok ()) :
    s.finCells ((x, y) :: rest) = s.finCells rest := by
  simp only [Sudoku.finCells, h, hv]

theorem finCells_cons_err {s : Sudoku} {x y v : Nat} {r : InvalidReason}
    {rest : List (Nat × Nat)}
    (h : s.cell x y = some v) (hv : s.cell_valid x y v = .error r) :
    s.finCells ((x, y) :: rest) = .error r := by
  simp only [Sudoku.finCells, h, hv]

theorem finCells_ok_iff {s : Sudoku} {cells : List (Nat × Nat)} :
    s.finCells cells = .ok () ↔
      ∀ x y, (x, y) ∈ cells → ∃ v, s.cell x y = some v ∧
        s.cell_valid x y v = .ok () := by
  induction cells with
  | nil => simp [Sudoku.finCells]
  | cons c rest ih =>
    obtain ⟨x, y⟩ := c
    rcases hcell : s.cell x y with _ | v
    · rw [finCells_cons_none hcell]
      constructor
      · intro h
        cases h
      · intro h
        obtain ⟨v, hv, -⟩ := h x y (List.mem_cons_self _ _)
        rw [hcell] at hv
        cases hv
    · rcases hvalid : s.cell_valid x y v with r | u
      · rw [finCells_cons_err hcell hvalid]
        constructor
        · intro h
          cases h
        · intro h
          obtain ⟨v', hv', hok⟩ := h x y (List.mem_cons_self _ _)
          rw [hcell] at hv'
          cases hv'
          rw [hvalid] at hok
          cases hok
      · cases u
        rw [finCells_cons_ok hcell hvalid, ih]
        constructor
        · intro h x' y' hc
          rcases List.mem_cons.mp hc with hceq | hmem
          · injection hceq with h1 h2
            subst h1
            subst h2
            exact ⟨v, hcell, hvalid⟩
          · exact h x' y' hmem
        · intro h x' y' hc
          exact h x' y' (List.mem_cons_of_mem _ hc)

theorem is_well_formed_iff {s : Sudoku} :
    s.is_well_formed = true ↔ s.well_formed = .ok () := by
  unfold Sudoku.is_well_formed
  rcases h : s.well_formed with r | u
  · simp
  · cases u
    simp

theorem is_finished_iff {s : Sudoku} :
    s.is_finished = true ↔ s.finished = .ok () := by
  unfold Sudoku.is_finished
  rcases h : s.finished with r | u
  · simp
  · cases u
    simp

/-- A finished grid is well-formed (`finished` checks everything
`well_formed` checks, and more). -/
theorem is_well_formed_of_is_finished {s : Sudoku} (h : s.is_finished = true) :
    s.is_well_formed = true := by
  rw [is_finished_iff] at h
  rw [is_well_formed_iff]
  rw [Sudoku.finished, finCells_ok_iff] at h
  rw [Sudoku.well_formed, wfCells_ok_iff]
  intro x y hc v hv
  obtain ⟨v', hv', hok⟩ := h x y hc
  rw [hv] at hv'
  cases hv'
  exact hok

/-! ## The specification's view of well-formedness (no conflicting pair) -/

theorem cell_eq_rows {s : Sudoku} {x y : Nat} (hx : x < 9) (hy : y < 9) :
    s.cell x y = s.rows ⟨y, hy⟩ ⟨x, hx⟩ := by
  unfold Sudoku.cell
  rw [dif_pos ⟨hx, hy⟩]

theorem rows_eq_cell (s : Sudoku) (x y : Fin 9) :
    s.rows y x = s.cell x.val y.val := by
  unfold Sudoku.cell
  rw [dif_pos ⟨x.isLt, y.isLt⟩]

/-- The spec's notion of a conflict: two distinct cells that share a
row, a column or a 3×3 box (box = `(x / 3, y / 3)`), holding equal
non-blank values. -/
def Sudoku.HasConflict (s : Sudoku) : Prop :=
  ∃ x₁ y₁ x₂ y₂ : Fin 9,
    (x₁, y₁) ≠ (x₂, y₂) ∧
    (y₁ = y₂ ∨ x₁ = x₂ ∨ (x₁.val / 3 = x₂.val / 3 ∧ y₁.val / 3 = y₂.val / 3)) ∧
    (s.rows y₁ x₁).isSome ∧ s.rows y₁ x₁ = s.rows y₂ x₂

instance (s : Sudoku) : Decidable s.HasConflict := by
  unfold Sudoku.HasConflict
  infer_instance

/-- A conflicting pair, with the first cell strictly earlier in the
row-major scan, breaks the asymmetric `cell_valid` check at the second
cell. -/
theorem cell_valid_breaks_of_conflict {s : Sudoku} {x₁ y₁ x₂ y₂ : Fin 9} {v : Nat}
    (horder : y₁.val * 9 + x₁.val < y₂.val * 9 + x₂.val)
    (hunit : y₁ = y₂ ∨ x₁ = x₂ ∨ (x₁.val / 3 = x₂.val / 3 ∧ y₁.val / 3 = y₂.val / 3))
    (h1 : s.cell x₁.val y₁.val = some v) :
    s.cell_valid x₂.val y₂.val v ≠ .ok () := by
  intro hok
  obtain ⟨hrow, hcol, hbox⟩ := cell_valid_ok_iff.mp hok
  have hx₁ := x₁.isLt
  have hx₂ := x₂.isLt
  have hy₁ := y₁.isLt
  have hy₂ := y₂.isLt
  rcases Nat.lt_or_ge y₁.val y₂.val with hylt | hyge
  · -- strictly earlier row: only a column or box conflict can relate them
    rcases hunit with hy | hx | ⟨hbx, hby⟩
    · rw [Fin.ext_iff] at hy
      omega
    · rw [Fin.ext_iff] at hx
      exact hcol y₁.val hylt (by rw [← hx]; exact h1)
    · -- same box, earlier row: the box-local index of the first cell is
      -- smaller, so the box scan of the second cell sees it
      have hilt : (y₁.val % 3) * 3 + x₁.val % 3 < (y₂.val % 3) * 3 + x₂.val % 3 := by
        omega
      refine hbox ((y₁.val % 3) * 3 + x₁.val % 3) hilt ?_
      have hxc : 3 * (x₂.val / 3) + ((y₁.val % 3) * 3 + x₁.val % 3) % 3 = x₁.val := by
        omega
      have hyc : 3 * (y₂.val / 3) + ((y₁.val % 3) * 3 + x₁.val % 3) / 3 = y₁.val := by
        omega
      rw [hxc, hyc]
      exact h1
  · -- same row (the order forces y₁ = y₂ and x₁ < x₂): a row conflict
    have hyeq : y₁.val = y₂.val := by omega
    have hxlt : x₁.val < x₂.val := by omega
    exact hrow x₁.val hxlt (by rw [← hyeq]; exact h1)

/-- Claim C2, as a reusable lemma: `well_formed` succeeds iff the grid
has no conflicting pair at all — the asymmetric earlier-cells-only check
misses no pair. -/
theorem well_formed_ok_iff_no_conflict (s : Sudoku) :
    s.well_formed = .ok () ↔ ¬ s.HasConflict := by
  constructor
  · intro hok hconf
    obtain ⟨x₁, y₁, x₂, y₂, hne, hunit, hsome, heq⟩ := hconf
    rw [Sudoku.well_formed, wfCells_ok_iff] at hok
    obtain ⟨v, hv⟩ := Option.isSome_iff_exists.mp hsome
    have h1 : s.cell x₁.val y₁.val = some v := by
      rw [← rows_eq_cell]
      exact hv
    have h2 : s.cell x₂.val y₂.val = some v := by
      rw [← rows_eq_cell, ← heq]
      exact hv
    have hkne : y₁.val * 9 + x₁.val ≠ y₂.val * 9 + x₂.val := by
      intro hk
      apply hne
      have hx₁ := x₁.isLt
      have hx₂ := x₂.isLt
      have : x₁.val = x₂.val ∧ y₁.val = y₂.val := by omega
      rw [Prod.mk.injEq, Fin.ext_iff, Fin.ext_iff]
      exact this
    rcases Nat.lt_or_ge (y₁.val * 9 + x₁.val) (y₂.val * 9 + x₂.val) with hlt | hge
    · exact cell_valid_breaks_of_conflict hlt hunit h1
        (hok x₂.val y₂.val (mem_scanOrder.mpr ⟨x₂.isLt, y₂.isLt⟩) v h2)
    · have hlt' : y₂.val * 9 + x₂.val < y₁.val * 9 + x₁.val := by omega
      have hunit' : y₂ = y₁ ∨ x₂ = x₁ ∨
          (x₂.val / 3 = x₁.val / 3 ∧ y₂.val / 3 = y₁.val / 3) := by
        rcases hunit with h | h | h
        · exact Or.inl h.symm
        · exact Or.inr (Or.inl h.symm)
        · exact Or.inr (Or.inr ⟨h.1.symm, h.2.symm⟩)
      exact cell_valid_breaks_of_conflict hlt' hunit' h2
        (hok x₁.val y₁.val (mem_scanOrder.mpr ⟨x₁.isLt, y₁.isLt⟩) v h1)
  · intro hnoconf
    rw [Sudoku.well_formed, wfCells_ok_iff]
    intro x y hmem v hv
    obtain ⟨hx, hy⟩ := mem_scanOrder.mp hmem
    refine cell_valid_ok_iff.mpr ⟨?_, ?_, ?_⟩
    · intro i hi hcontra
      refine hnoconf ⟨⟨i, by omega⟩, ⟨y, hy⟩, ⟨x, hx⟩, ⟨y, hy⟩, ?_, Or.inl rfl, ?_, ?_⟩
      · rw [Ne, Prod.mk.injEq, Fin.ext_iff, Fin.ext_iff]
        simp only [not_and]
        intro hxeq
        omega
      · rw [rows_eq_cell]
        simp only [hcontra, Option.isSome_some]
      · rw [rows_eq_cell, rows_eq_cell]
        simp only [hcontra, hv]
    · intro i hi hcontra
      refine hnoconf ⟨⟨x, hx⟩, ⟨i, by omega⟩, ⟨x, hx⟩, ⟨y, hy⟩, ?_,
        Or.inr (Or.inl rfl), ?_, ?_⟩
      · rw [Ne, Prod.mk.injEq, Fin.ext_iff, Fin.ext_iff]
        simp only [not_and]
        intro hxeq
        omega
      · rw [rows_eq_cell]
        simp only [hcontra, Option.isSome_some]
      · rw [rows_eq_cell, rows_eq_cell]
        simp only [hcontra, hv]
    · intro i hi hcontra
      have hx' : 3 * (x / 3) + i % 3 < 9 := by omega
      have hy' : 3 * (y / 3) + i / 3 < 9 := by omega
      have hbx : (3 * (x / 3) + i % 3) / 3 = x / 3 := by omega
      have hby : (3 * (y / 3) + i / 3) / 3 = y / 3 := by omega
      refine hnoconf ⟨⟨3 * (x / 3) + i % 3, hx'⟩, ⟨3 * (y / 3) + i / 3, hy'⟩,
        ⟨x, hx⟩, ⟨y, hy⟩, ?_, Or.inr (Or.inr ⟨hbx, hby⟩), ?_, ?_⟩
      · rw [Ne, Prod.mk.injEq, Fin.ext_iff, Fin.ext_iff]
        simp only [not_and]
        intro hxeq hyeq
        omega
      · rw [rows_eq_cell]
        simp only [hcontra, Option.isSome_some]
      · rw [rows_eq_cell, rows_eq_cell]
        simp only [hcontra, hv]

/-- Function `Solver::run`: `run_with_callback` with the always-continue,
never-failing callback (`E = Infallible`, embedded as `Empty`), then
`.unwrap().unwrap()`.  The outer unwrap cannot fail (`E` is empty); the
inner unwrap of the `Option` is kept visible, so `run` returns the
`Option` — the claims prove it is always `some`. -/
def run (sudoku : Sudoku) : Option Sudoku :=
  match run_with_callback (fun _ _ => (.ok true : Except Empty Bool)) sudoku with
  | .ok r => r
  | .error e => e.elim

/-! ## Behaviour of the search loop -/

theorem solveLoop_nil {E : Type} (cb : Nat → Sudoku → Except E Bool)
    (fuel k : Nat) (best : Nat × Sudoku) :
    solveLoop cb fuel k best [] = .ok (some best.2) := by
  cases fuel <;> rfl

theorem solveLoop_cons {E : Type} (cb : Nat → Sudoku → Except E Bool)
    (fuel k : Nat) (best : Nat × Sudoku) (attempt : Sudoku) (rest : List Sudoku) :
    solveLoop cb (fuel + 1) k best (attempt :: rest) =
      if attempt.is_well_formed then
        if attempt.is_finished then
          .ok (some (if best.1 < attempt.score then (best.1, attempt) else best).2)
        else
          match cb k attempt with
          | .error e => .error e
          | .ok false => .ok none
          | .ok true =>
            solveLoop cb fuel (k + 1)
              (if best.1 < attempt.score then (best.1, attempt) else best)
              (expand attempt rest)
      else
        solveLoop cb fuel k best rest := rfl

/-- A callback that always answers "continue" (and never fails) lets the
search run to completion: some grid is always returned. -/
theorem solveLoop_some_of_always_true {E : Type} {cb : Nat → Sudoku → Except E Bool}
    (hcb : ∀ k g, cb k g = .ok true) :
    ∀ (fuel : Nat) {k : Nat} {best : Nat × Sudoku} {stack : List Sudoku},
      stackMeasure stack < fuel →
      ∃ r, solveLoop cb fuel k best stack = .ok (some r) := by
  intro fuel
  induction fuel with
  | zero =>
    intro k best stack h
    exact absurd h (Nat.not_lt_zero _)
  | succ fuel ih =>
    intro k best stack h
    match stack with
    | [] => exact ⟨best.2, rfl⟩
    | attempt :: rest =>
      rw [solveLoop_cons]
      by_cases hwf : attempt.is_well_formed
      · simp only [hwf, if_true]
        by_cases hfin : attempt.is_finished
        · simp only [hfin, if_true]
          exact ⟨_, rfl⟩
        · simp only [hfin, if_false, Bool.false_eq_true, hcb k attempt]
          have hm : stackMeasure (expand attempt rest) < fuel := by
            have h1 := stackMeasure_expand_lt attempt rest
            omega
          exact ih hm
      · simp only [hwf, if_false, Bool.false_eq_true]
        have hm : stackMeasure rest < fuel := by
          have h1 := stackMeasure_tail_lt attempt rest
          omega
        exact ih hm

/-- If the search returned no grid, the callback answered "stop"
somewhere. -/
theorem solveLoop_none_imp_stop {E : Type} {cb : Nat → Sudoku → Except E Bool} :
    ∀ (fuel : Nat) {k : Nat} {best : Nat × Sudoku} {stack : List Sudoku},
      stackMeasure stack < fuel →
      solveLoop cb fuel k best stack = .ok none →
      ∃ k' g, cb k' g = .ok false := by
  intro fuel
  induction fuel with
  | zero =>
    intro k best stack h
    exact absurd h (Nat.not_lt_zero _)
  | succ fuel ih =>
    intro k best stack h hres
    match stack with
    | [] =>
      rw [solveLoop_nil] at hres
      cases hres
    | attempt :: rest =>
      rw [solveLoop_cons] at hres
      by_cases hwf : attempt.is_well_formed
      · simp only [hwf, if_true] at hres
        by_cases hfin : attempt.is_finished
        · simp only [hfin, if_true] at hres
          cases hres
        · simp only [hfin, if_false, Bool.false_eq_true] at hres
          rcases hcb : cb k attempt with e | b
          · rw [hcb] at hres
            cases hres
          · cases b
            · exact ⟨k, attempt, hcb⟩
            · rw [hcb] at hres
              have hm : stackMeasure (expand attempt rest) < fuel := by
                have h1 := stackMeasure_expand_lt attempt rest
                omega
              exact ih hm hres
      · simp only [hwf, if_false, Bool.false_eq_true] at hres
        have hm : stackMeasure rest < fuel := by
          have h1 := stackMeasure_tail_lt attempt rest
          omega
        exact ih hm hres

/-- "Grid `g'` extends grid `g`": every cell filled in `g` is filled with
the same value in `g'`; `g'` differs from `g` at most by filling cells
that are empty in `g`. -/
def Extends (g g' : Sudoku) : Prop :=
  ∀ x y : Fin 9, (g.rows y x).isSome = true → g'.rows y x = g.rows y x

instance (g g' : Sudoku) : Decidable (Extends g g') := by
  unfold Extends
  infer_instance

theorem Extends.refl (g : Sudoku) : Extends g g := fun _ _ _ => rfl

theorem extends_setCell {g attempt : Sudoku} {x y v : Nat}
    (hnone : attempt.cell x y = none) (hext : Extends g attempt) :
    Extends g (attempt.setCell x y v) := by
  intro x' y' hsome
  unfold Sudoku.setCell
  by_cases hc : y'.val = y ∧ x'.val = x
  · exfalso
    have hx : x < 9 := hc.2 ▸ x'.isLt
    have hy : y < 9 := hc.1 ▸ y'.isLt
    rw [cell_eq_rows hx hy] at hnone
    have : (⟨y, hy⟩ : Fin 9) = y' := by
      rw [Fin.ext_iff]
      exact hc.1.symm
    rw [this] at hnone
    have : (⟨x, hx⟩ : Fin 9) = x' := by
      rw [Fin.ext_iff]
      exact hc.2.symm
    rw [this] at hnone
    rw [hext x' y' hsome] at hnone
    rw [hnone] at hsome
    cases hsome
  · show (if y'.val = y ∧ x'.val = x then some v else attempt.rows y' x') = g.rows y' x'
    rw [if_neg hc]
    exact hext x' y' hsome

theorem extends_of_mem_expand {g attempt a : Sudoku} {rest : List Sudoku}
    (hext : Extends g attempt) (hrest : ∀ b ∈ rest, Extends g b)
    (ha : a ∈ expand attempt rest) : Extends g a := by
  rcases hfe : attempt.firstEmpty with _ | ⟨x, y⟩
  · rw [expand_of_none hfe] at ha
    exact hrest a ha
  · rw [expand_of_some hfe] at ha
    rcases List.mem_append.mp ha with hmem | hmem
    · rw [List.mem_reverse] at hmem
      unfold childGrids at hmem
      simp only [List.mem_filterMap, List.mem_range] at hmem
      obtain ⟨i, -, hi⟩ := hmem
      by_cases hv : attempt.is_cell_valid x y (i + 1)
      · rw [if_pos hv] at hi
        cases hi
        obtain ⟨-, -, hnone⟩ := cell_isNone_of_firstEmpty hfe
        exact extends_setCell hnone hext
      · rw [if_neg hv] at hi
        cases hi
    · exact hrest a hmem

/-- Every grid the search can return extends every grid that extends the
whole current state (recorded best and all stack entries). -/
theorem solveLoop_extends {E : Type} {cb : Nat → Sudoku → Except E Bool} {g : Sudoku} :
    ∀ (fuel : Nat) {k : Nat} {best : Nat × Sudoku} {stack : List Sudoku},
      stackMeasure stack < fuel →
      Extends g best.2 → (∀ a ∈ stack, Extends g a) →
      ∀ r, solveLoop cb fuel k best stack = .ok (some r) → Extends g r := by
  intro fuel
  induction fuel with
  | zero =>
    intro k best stack h
    exact absurd h (Nat.not_lt_zero _)
  | succ fuel ih =>
    intro k best stack h hbest hstack r hres
    match stack with
    | [] =>
      rw [solveLoop_nil] at hres
      cases hres
      exact hbest
    | attempt :: rest =>
      have hatt : Extends g attempt := hstack attempt (List.mem_cons_self _ _)
      have hrest : ∀ a ∈ rest, Extends g a :=
        fun a ha => hstack a (List.mem_cons_of_mem _ ha)
      rw [solveLoop_cons] at hres
      by_cases hwf : attempt.is_well_formed
      · simp only [hwf, if_true] at hres
        have hbest' :
            Extends g (if best.1 < attempt.score then (best.1, attempt) else best).2 := by
          by_cases hsc : best.1 < attempt.score
          · rw [if_pos hsc]
            exact hatt
          · rw [if_neg hsc]
            exact hbest
        by_cases hfin : attempt.is_finished
        · simp only [hfin, if_true] at hres
          cases hres
          exact hbest'
        · simp only [hfin, if_false, Bool.false_eq_true] at hres
          rcases hcb : cb k attempt with e | b
          · rw [hcb] at hres
            cases hres
          · cases b
            · rw [hcb] at hres
              cases hres
            · rw [hcb] at hres
              have hm : stackMeasure (expand attempt rest) < fuel := by
                have h1 := stackMeasure_expand_lt attempt rest
                omega
              exact ih hm hbest'
                (fun a ha => extends_of_mem_expand hatt hrest ha) r hres
      · simp only [hwf, if_false, Bool.false_eq_true] at hres
        have hm : stackMeasure rest < fuel := by
          have h1 := stackMeasure_tail_lt attempt rest
          omega
        exact ih hm hbest hrest r hres

/-- Any result `run_with_callback` returns extends the input grid: no
given clue is ever overwritten or erased. -/
theorem run_with_callback_extends {E : Type} {cb : Nat → Sudoku → Except E Bool}
    {g r : Sudoku} (h : run_with_callback cb g = .ok (some r)) : Extends g r := by
  unfold run_with_callback at h
  refine solveLoop_extends (stackMeasure [g] + 1) (by omega) (Extends.refl g) ?_ r h
  intro a ha
  rw [List.mem_singleton] at ha
  subst ha
  exact Extends.refl _

/-- An already finished input is returned unchanged, whatever the
callback does (the loop breaks on the first pop, before the callback is
ever consulted and before anything is pushed). -/
theorem run_with_callback_finished {E : Type} (cb : Nat → Sudoku → Except E Bool)
    {g : Sudoku} (h : g.is_finished = true) :
    run_with_callback cb g = .ok (some g) := by
  unfold run_with_callback
  rw [solveLoop_cons]
  simp [is_well_formed_of_is_finished h, h]

/-- An ill-formed input is popped, discarded without expansion, and the
initial best — the input itself — is returned; the callback is never
consulted. -/
theorem run_with_callback_ill_formed {E : Type} (cb : Nat → Sudoku → Except E Bool)
    {g : Sudoku} (h : g.is_well_formed = false) :
    run_with_callback cb g = .ok (some g) := by
  unfold run_with_callback
  rw [solveLoop_cons, h]
  simp only [Bool.false_eq_true, if_false, solveLoop_nil]

/-- A callback that stops at its very first invocation makes the search
return no grid — provided the input is well-formed and unfinished, so
that the callback is invoked at all. -/
theorem run_with_callback_stop_first {E : Type} {cb : Nat → Sudoku → Except E Bool}
    {g : Sudoku} (hwf : g.is_well_formed = true) (hfin : g.is_finished = false)
    (hstop : cb 0 g = .ok false) :
    run_with_callback cb g = .ok none := by
  unfold run_with_callback
  rw [solveLoop_cons]
  simp only [hwf, hfin, hstop, if_true, Bool.false_eq_true, if_false]

theorem run_with_callback_some_of_always_true {E : Type}
    {cb : Nat → Sudoku → Except E Bool} (hcb : ∀ k g, cb k g = .ok true)
    (g : Sudoku) : ∃ r, run_with_callback cb g = .ok (some r) :=
  solveLoop_some_of_always_true hcb (stackMeasure [g] + 1) (by omega)

theorem run_with_callback_none_imp_stop {E : Type}
    {cb : Nat → Sudoku → Except E Bool} {g : Sudoku}
    (h : run_with_callback cb g = .ok none) : ∃ k' a, cb k' a = .ok false :=
  solveLoop_none_imp_stop (stackMeasure [g] + 1) (by omega) h

/-! ## File parsers (`src/utils.rs`)

Each Rust parser reads the file into a string and splits it on `'\n'`;
file I/O errors (`FileRead`) are outside the model, whose input is the
file's text.  The Rust functions return `Vec<Sudoku>` holding exactly one
grid for these three formats; the model returns the grid. -/

/-- Rust `str::split(sep)`: splits at every separator, keeping empty pieces;
an empty input yields one empty piece. -/
def splitOn (sep : Char) : List Char → List (List Char)
  | [] => [[]]
  | c :: cs =>
    if c = sep then [] :: splitOn sep cs
    else
      match splitOn sep cs with
      | t :: ts => (c :: t) :: ts
      | [] => [[c]]

/-- The `c.len() == 1 && '0' <= c && c <= '9'` test of the source on a
one-character grapheme (character order is codepoint order, so the test
is on the codepoint; `48 = '0'`, `57 = '9'`). -/
def isAsciiDigit (c : Char) : Bool := 48 ≤ c.toNat && c.toNat ≤ 57

/-- Rust `u8::from_str` on a single decimal digit. -/
def digitVal (c : Char) : Nat := c.toNat - 48

/-- Test `line.trim().len() == 0`. -/
def isBlank (line : List Char) : Bool := line.all fun c => c.isWhitespace

/-- Write `rows[y] = row` on the accumulated `[[Option<u8>; 9]; 9]`. -/
def updRow (rows : Fin 9 → Fin 9 → Option Nat) (y : Nat)
    (row : Fin 9 → Option Nat) : Fin 9 → Fin 9 → Option Nat :=
  fun y' x' => if y'.val = y then row x' else rows y' x'

/-- Write `row[x] = Some(v)` on an accumulated row (always in bounds where the
source uses it). -/
def updCell (row : Fin 9 → Option Nat) (x : Nat) (v : Option Nat) :
    Fin 9 → Option Nat :=
  fun i => if i.val = x then v else row i

/-- Type `SudokuPuzzleError` of `src/utils.rs` (the `FileRead` variant is
file-system I/O, outside the model). -/
inductive SudokuPuzzleError where
  | UnknownMetadata (line : Nat) (marker : Char)
  | IncorrectLength (line got : Nat)
  | IllegalCellChar (line col : Nat) (got : Char)
  | TooManyRows (line : Nat)
deriving DecidableEq

/-- The cell loop of `parse_sudoku_puzzle`: each of the (exactly nine)
characters is a digit `0`-`9` (stored literally, `'0'` included) or `'.'`
(left blank); anything else is `IllegalCellChar`. -/
def parseSdkCells (l : Nat) : List Char → Nat → (Fin 9 → Option Nat) →
    Except SudokuPuzzleError (Fin 9 → Option Nat)
  | [], _, row => .ok row
  | c :: cs, x, row =>
    if isAsciiDigit c then
      parseSdkCells l cs (x + 1) (updCell row x (some (digitVal c)))
    else if c = '.' then
      parseSdkCells l cs (x + 1) row
    else
      .error (.IllegalCellChar (l + 1) (x + 1) c)

/-- The line loop of `parse_sudoku_puzzle`: skip whitespace-only lines,
skip `#`-metadata lines with a known marker, reject unknown markers,
require exactly 9 cells per remaining line and at most 9 such rows. -/
def parseSdkLines : List (List Char) → Nat → Nat → (Fin 9 → Fin 9 → Option Nat) →
    Except SudokuPuzzleError Sudoku
  | [], _, _, rows => .ok ⟨rows⟩
  | line :: rest, l, y, rows =>
    if isBlank line then
      parseSdkLines rest (l + 1) y rows
    else if 2 ≤ line.length ∧ line.get? 0 = some '#' then
      if (line.get? 1).getD ' ' = 'A' ∨ (line.get? 1).getD ' ' = 'D' ∨
          (line.get? 1).getD ' ' = 'C' ∨ (line.get? 1).getD ' ' = 'B' ∨
          (line.get? 1).getD ' ' = 'S' ∨ (line.get? 1).getD ' ' = 'L' ∨
          (line.get? 1).getD ' ' = 'U' then
        parseSdkLines rest (l + 1) y rows
      else
        .error (.UnknownMetadata (l + 1) ((line.get? 1).getD ' '))
    else if line.length ≠ 9 then
      .error (.IncorrectLength (l + 1) line.length)
    else
      match parseSdkCells l line 0 (fun _ => none) with
      | .error e => .error e
      | .ok row =>
        if 9 ≤ y then .error (.TooManyRows (l + 1))
        else parseSdkLines rest (l + 1) (y + 1) (updRow rows y row)

/-- Function `parse_sudoku_puzzle` of `src/utils.rs` (`.sdk` format), on the
file's text. -/
def parse_sudoku_puzzle (raw : List Char) : Except SudokuPuzzleError Sudoku :=
  parseSdkLines (splitOn '\n' raw) 0 0 fun _ _ => none

/-- Outcome of a Rust function that can also abort the process: `ok`,
a returned error, or a `panic` (here: an out-of-bounds slice write). -/
inductive ParseOutcome (ε α : Type) where
  | ok (val : α)
  | err (e : ε)
  | panicked
deriving DecidableEq

/-- Type `SudokuPuzzleProgressError` of `src/utils.rs` (minus `FileRead`). -/
inductive SudokuPuzzleProgressError where
  | EmptyCell (line cell : Nat)
  | IllegalCellChar (line col : Nat) (got : Char)
  | TooManyRows (line : Nat)
deriving DecidableEq

/-- The digit-collection loop of `parse_sudoku_puzzle_progress` over one
space-separated cell token: digits accumulate; a single leading `u` is
allowed; anything else is `IllegalCellChar`. -/
def parseSdxToken (l x : Nat) : List Char → Nat → List Nat →
    Except SudokuPuzzleProgressError (List Nat)
  | [], _, ns => .ok ns
  | c :: cs, i, ns =>
    if isAsciiDigit c then
      parseSdxToken l x cs (i + 1) (ns ++ [digitVal c])
    else if 0 < i ∨ c ≠ 'u' then
      .error (.IllegalCellChar (l + 1) (x + 1) c)
    else
      parseSdxToken l x cs (i + 1) ns

/-- The cell loop of `parse_sudoku_puzzle_progress` over the
space-separated tokens of one line.  Faithful to the source, the
`if x >= 9 {  }` guard at `src/utils.rs:452` is an empty statement, so a
tenth token is not rejected: the following `row[x] = …` indexes the
9-element row out of bounds, which in Rust is a panic — modelled by
`ParseOutcome.panicked`. -/
def parseSdxCells (l : Nat) : List (List Char) → Nat → (Fin 9 → Option Nat) →
    ParseOutcome SudokuPuzzleProgressError (Fin 9 → Option Nat)
  | [], _, row => .ok row
  | c :: cs, x, row =>
    if c.isEmpty then .err (.EmptyCell (l + 1) (x + 1))
    else
      match parseSdxToken l x c 0 [] with
      | .error e => .err e
      | .ok ns =>
        if ns.length = 1 then
          if 9 ≤ x then .panicked
          else parseSdxCells l cs (x + 1) (updCell row x (some (ns.headD 0)))
        else if ns.isEmpty = false then
          if 9 ≤ x then .panicked
          else parseSdxCells l cs (x + 1) (updCell row x none)
        else
          .err (.EmptyCell (l + 1) (x + 1))

/-- The line loop of `parse_sudoku_puzzle_progress`. -/
def parseSdxLines : List (List Char) → Nat → Nat → (Fin 9 → Fin 9 → Option Nat) →
    ParseOutcome SudokuPuzzleProgressError Sudoku
  | [], _, _, rows => .ok ⟨rows⟩
  | line :: rest, l, y, rows =>
    if isBlank line then
      parseSdxLines rest (l + 1) y rows
    else
      match parseSdxCells l (splitOn ' ' line) 0 (fun _ => none) with
      | .err e => .err e
      | .panicked => .panicked
      | .ok row =>
        if 9 ≤ y then .err (.TooManyRows (l + 1))
        else parseSdxLines rest (l + 1) (y + 1) (updRow rows y row)

/-- Function `parse_sudoku_puzzle_progress` of `src/utils.rs` (`.sdx` format), on
the file's text. -/
def parse_sudoku_puzzle_progress (raw : List Char) :
    ParseOutcome SudokuPuzzleProgressError Sudoku :=
  parseSdxLines (splitOn '\n' raw) 0 0 fun _ _ => none

/-- Type `SimpleSudokuNewError` of `src/utils.rs` (minus `FileRead`). -/
inductive SimpleSudokuNewError where
  | IllegalSeparatorRow (line : Nat) (got : List Char)
  | TooManyCols (line : Nat)
  | IllegalSeparatorCol (line : Nat) (got : Char)
  | IllegalCellChar (line col : Nat) (got : Char)
  | TooManyRows (line : Nat)
deriving DecidableEq

/-- The per-line cell loop of `parse_simple_sudoku_new` (`.ss`,
new style): raw character index `x`; index 11 and beyond is
`TooManyCols`; positions 3 and 7 must hold `'|'`; other positions are a
digit or `'.'`, stored at the separator-compensated column.  There is no
check that a line has at least 11 characters: a short line simply ends
the loop and is accepted. -/
def ssRowCells (l : Nat) : List Char → Nat → (Fin 9 → Option Nat) →
    Except SimpleSudokuNewError (Fin 9 → Option Nat)
  | [], _, row => .ok row
  | c :: cs, x, row =>
    if 11 ≤ x then .error (.TooManyCols (l + 1))
    else if x = 3 ∨ x = 7 then
      if c = '|' then ssRowCells l cs (x + 1) row
      else .error (.IllegalSeparatorCol (l + 1) c)
    else
      -- `if x >= 7 { x -= 1; } if x >= 3 { x -= 1; }`
      let x₁ : Nat := if 7 ≤ x then x - 1 else x
      let x₂ : Nat := if 3 ≤ x₁ then x₁ - 1 else x₁
      if isAsciiDigit c then
        ssRowCells l cs (x + 1) (updCell row x₂ (some (digitVal c)))
      else if c = '.' then
        ssRowCells l cs (x + 1) row
      else
        .error (.IllegalCellChar (l + 1) (x₂ + 1) c)

/-- The separator line `"-----------"` expected at 0-indexed lines 3
and 7. -/
def ssSepRow : List Char := List.replicate 11 '-'

/-- The line loop of `parse_simple_sudoku_new`. -/
def ssLines : List (List Char) → Nat → Nat → (Fin 9 → Fin 9 → Option Nat) →
    Except SimpleSudokuNewError Sudoku
  | [], _, _, rows => .ok ⟨rows⟩
  | line :: rest, l, y, rows =>
    if l = 3 ∨ l = 7 then
      if line = ssSepRow then ssLines rest (l + 1) y rows
      else .error (.IllegalSeparatorRow (l + 1) line)
    else
      match ssRowCells l line 0 (fun _ => none) with
      | .error e => .error e
      | .ok row =>
        if 9 ≤ y then .error (.TooManyRows (l + 1))
        else ssLines rest (l + 1) (y + 1) (updRow rows y row)

/-- Function `parse_simple_sudoku_new` of `src/utils.rs` (`.ss` format, new
style), on the file's text. -/
def parse_simple_sudoku_new (raw : List Char) :
    Except SimpleSudokuNewError Sudoku :=
  ssLines (splitOn '\n' raw) 0 0 fun _ _ => none

/-! ## Per-line behaviour of the `.ss` row loop (claim C6) -/

/-- A non-separator `.ss` line longer than 11 characters is always
rejected: the loop reaches raw index 11 (or fails earlier). -/
theorem ssRowCells_err_of_long :
    ∀ (cs : List Char) (l x : Nat) (row : Fin 9 → Option Nat),
      11 < x + cs.length → x ≤ 11 →
      ∃ e, ssRowCells l cs x row = .error e := by
  intro cs
  induction cs with
  | nil =>
    intro l x row hlong hx
    simp at hlong
    omega
  | cons c cs ih =>
    intro l x row hlong hx
    unfold ssRowCells
    by_cases h11 : 11 ≤ x
    · rw [if_pos h11]
      exact ⟨_, rfl⟩
    · rw [if_neg h11]
      have harith : 11 < (x + 1) + cs.length := by
        simp at hlong
        omega
      have hx1 : x + 1 ≤ 11 := by omega
      by_cases hsep : x = 3 ∨ x = 7
      · rw [if_pos hsep]
        by_cases hbar : c = '|'
        · rw [if_pos hbar]
          exact ih l (x + 1) row harith hx1
        · rw [if_neg hbar]
          exact ⟨_, rfl⟩
      · rw [if_neg hsep]
        by_cases hdig : isAsciiDigit c
        · rw [if_pos hdig]
          exact ih l (x + 1) _ harith hx1
        · rw [if_neg hdig]
          by_cases hdot : c = '.'
          · rw [if_pos hdot]
            exact ih l (x + 1) row harith hx1
          · rw [if_neg hdot]
            exact ⟨_, rfl⟩

/-- A non-separator `.ss` line of at most 11 characters is accepted as
long as the characters at raw positions 3 and 7 (when present) are `'|'`
and every other character is a digit or `'.'` — in particular a line
shorter than 11 characters is not rejected. -/
theorem ssRowCells_ok_of_good :
    ∀ (cs : List Char) (l x : Nat) (row : Fin 9 → Option Nat),
      x + cs.length ≤ 11 →
      (∀ j c, cs.get? j = some c →
        ((x + j = 3 ∨ x + j = 7) → c = '|') ∧
        (¬(x + j = 3 ∨ x + j = 7) → isAsciiDigit c = true ∨ c = '.')) →
      ∃ row', ssRowCells l cs x row = .ok row' := by
  intro cs
  induction cs with
  | nil =>
    intro l x row hlen hgood
    exact ⟨row, rfl⟩
  | cons c cs ih =>
    intro l x row hlen hgood
    have hlen' : x + 1 + cs.length ≤ 11 := by
      simp at hlen
      omega
    have hx11 : ¬ 11 ≤ x := by
      simp at hlen
      omega
    have hgood' : ∀ j c', cs.get? j = some c' →
        ((x + 1 + j = 3 ∨ x + 1 + j = 7) → c' = '|') ∧
        (¬(x + 1 + j = 3 ∨ x + 1 + j = 7) → isAsciiDigit c' = true ∨ c' = '.') := by
      intro j c' hj
      have := hgood (j + 1) c' (by simpa using hj)
      constructor
      · intro hsep
        exact this.1 (by omega)
      · intro hsep
        exact this.2 (by omega)
    have hc0 := hgood 0 c rfl
    unfold ssRowCells
    rw [if_neg hx11]
    by_cases hsep : x = 3 ∨ x = 7
    · rw [if_pos hsep]
      rw [hc0.1 (by omega)]
      simp only [if_pos rfl]
      exact ih l (x + 1) row hlen' hgood'
    · rw [if_neg hsep]
      rcases hc0.2 (by omega) with hdig | hdot
      · rw [if_pos hdig]
        exact ih l (x + 1) _ hlen' hgood'
      · rw [if_neg (by rw [hdot]; decide), if_pos hdot]
        exact ih l (x + 1) row hlen' hgood'

/-! ## Characterization of a successful `.sdk` parse (claim C7) -/

/-- The lines `parse_sudoku_puzzle` skips: whitespace-only lines and
`#`-metadata lines. -/
def sdkIsSkip (line : List Char) : Bool :=
  isBlank line || (decide (2 ≤ line.length) && (line.get? 0 == some '#'))

/-- The lines of a `.sdk` file that become grid rows, in order. -/
def sdkContent (lines : List (List Char)) : List (List Char) :=
  lines.filter fun line => ! sdkIsSkip line

/-- What a successful `.sdk` cell loop guarantees: cells before the start
index are untouched, every consumed character is a digit or `'.'`, and
the row holds the digit's literal value (`'0'` giving `0`) at each digit
position while `'.'` positions keep their previous (blank) content. -/
theorem parseSdkCells_ok :
    ∀ (cs : List Char) (l x₀ : Nat) (row₀ row : Fin 9 → Option Nat),
      x₀ + cs.length ≤ 9 →
      parseSdkCells l cs x₀ row₀ = .ok row →
      (∀ i : Fin 9, i.val < x₀ → row i = row₀ i) ∧
      (∀ j c, cs.get? j = some c → isAsciiDigit c = true ∨ c = '.') ∧
      (∀ i : Fin 9, x₀ ≤ i.val → ∀ c, cs.get? (i.val - x₀) = some c →
        (isAsciiDigit c = true → row i = some (digitVal c)) ∧
        (c = '.' → row i = row₀ i)) := by
  intro cs
  induction cs with
  | nil =>
    intro l x₀ row₀ row hlen hok
    unfold parseSdkCells at hok
    cases hok
    exact ⟨fun _ _ => rfl, by simp, fun i hi c hc => by simp at hc⟩
  | cons c cs ih =>
    intro l x₀ row₀ row hlen hok
    have hlen' : (x₀ + 1) + cs.length ≤ 9 := by
      simp at hlen
      omega
    unfold parseSdkCells at hok
    by_cases hdig : isAsciiDigit c
    · rw [if_pos hdig] at hok
      obtain ⟨ih1, ih2, ih3⟩ := ih l (x₀ + 1) _ row hlen' hok
      refine ⟨?_, ?_, ?_⟩
      · intro i hi
        rw [ih1 i (by omega)]
        unfold updCell
        rw [if_neg (by omega)]
      · intro j c' hj
        match j with
        | 0 =>
          cases hj
          exact Or.inl hdig
        | j + 1 =>
          exact ih2 j c' (by simpa using hj)
      · intro i hix c' hc'
        by_cases hieq : i.val = x₀
        · have : i.val - x₀ = 0 := by omega
          rw [this] at hc'
          cases hc'
          constructor
          · intro _
            rw [ih1 i (by omega)]
            unfold updCell
            rw [if_pos hieq]
          · intro hdot
            rw [hdot] at hdig
            exact absurd hdig (by decide)
        · have hix1 : x₀ + 1 ≤ i.val := by omega
          have : i.val - x₀ = (i.val - (x₀ + 1)) + 1 := by omega
          rw [this] at hc'
          have hc'' : cs.get? (i.val - (x₀ + 1)) = some c' := by simpa using hc'
          have h3 := ih3 i hix1 c' hc''
          refine ⟨h3.1, ?_⟩
          intro hdot
          rw [h3.2 hdot]
          unfold updCell
          rw [if_neg (by omega)]
    · rw [if_neg hdig] at hok
      by_cases hdot : c = '.'
      · rw [if_pos hdot] at hok
        obtain ⟨ih1, ih2, ih3⟩ := ih l (x₀ + 1) row₀ row hlen' hok
        refine ⟨?_, ?_, ?_⟩
        · intro i hi
          exact ih1 i (by omega)
        · intro j c' hj
          match j with
          | 0 =>
            cases hj
            exact Or.inr hdot
          | j + 1 =>
            exact ih2 j c' (by simpa using hj)
        · intro i hix c' hc'
          by_cases hieq : i.val = x₀
          · have : i.val - x₀ = 0 := by omega
            rw [this] at hc'
            cases hc'
            constructor
            · intro hdig'
              exact absurd hdig' hdig
            · intro _
              exact ih1 i (by omega)
          · have hix1 : x₀ + 1 ≤ i.val := by omega
            have : i.val - x₀ = (i.val - (x₀ + 1)) + 1 := by omega
            rw [this] at hc'
            exact ih3 i hix1 c' (by simpa using hc')
      · rw [if_neg hdot] at hok
        cases hok

theorem sdkContent_cons_skip {line : List Char} {rest : List (List Char)}
    (h : sdkIsSkip line = true) : sdkContent (line :: rest) = sdkContent rest := by
  simp [sdkContent, List.filter_cons, h]

theorem sdkContent_cons_keep {line : List Char} {rest : List (List Char)}
    (h : sdkIsSkip line = false) :
    sdkContent (line :: rest) = line :: sdkContent rest := by
  simp [sdkContent, List.filter_cons, h]

theorem sdkIsSkip_of_blank {line : List Char} (h : isBlank line = true) :
    sdkIsSkip line = true := by
  simp [sdkIsSkip, h]

theorem sdkIsSkip_of_meta {line : List Char}
    (h : 2 ≤ line.length ∧ line.get? 0 = some '#') : sdkIsSkip line = true := by
  unfold sdkIsSkip
  rw [decide_eq_true h.1, beq_iff_eq.mpr h.2]
  simp

theorem sdkIsSkip_false {line : List Char} (h1 : isBlank line = false)
    (h2 : ¬(2 ≤ line.length ∧ line.get? 0 = some '#')) :
    sdkIsSkip line = false := by
  unfold sdkIsSkip
  rw [h1]
  by_cases hl : 2 ≤ line.length
  · have hne : line.get? 0 ≠ some '#' := fun hc => h2 ⟨hl, hc⟩
    rw [beq_eq_false_iff_ne.mpr hne]
    simp
  · rw [decide_eq_false hl]
    simp

/-- What a successful `.sdk` line loop guarantees: rows before the start
row are untouched; at most nine content lines are consumed in total; and
the `j`-th content line determines row `y₀ + j` of the grid cell by cell
(digits stored literally — `'0'` giving the value `0` — and `'.'` giving
a blank). -/
theorem parseSdkLines_ok :
    ∀ (lines : List (List Char)) (l y₀ : Nat)
      (rows₀ : Fin 9 → Fin 9 → Option Nat) (g : Sudoku),
      y₀ ≤ 9 →
      parseSdkLines lines l y₀ rows₀ = .ok g →
      (∀ yy : Fin 9, yy.val < y₀ → g.rows yy = rows₀ yy) ∧
      y₀ + (sdkContent lines).length ≤ 9 ∧
      (∀ yy : Fin 9, y₀ ≤ yy.val →
        ∀ cl, (sdkContent lines).get? (yy.val - y₀) = some cl →
          ∀ x : Fin 9, ∀ c, cl.get? x.val = some c →
            (isAsciiDigit c = true → g.rows yy x = some (digitVal c)) ∧
            (c = '.' → g.rows yy x = none)) := by
  intro lines
  induction lines with
  | nil =>
    intro l y₀ rows₀ g hy₀ hok
    have hok' : (.ok ⟨rows₀⟩ : Except SudokuPuzzleError Sudoku) = .ok g := hok
    cases hok'
    refine ⟨fun _ _ => rfl, ?_, ?_⟩
    · simpa [sdkContent] using hy₀
    · intro yy hyy cl hcl
      simp [sdkContent] at hcl
  | cons line rest ih =>
    intro l y₀ rows₀ g hy₀ hok
    unfold parseSdkLines at hok
    by_cases hblank : isBlank line = true
    · rw [if_pos hblank] at hok
      obtain ⟨ih1, ih2, ih3⟩ := ih (l + 1) y₀ rows₀ g hy₀ hok
      rw [sdkContent_cons_skip (sdkIsSkip_of_blank hblank)]
      exact ⟨ih1, ih2, ih3⟩
    · rw [if_neg hblank] at hok
      by_cases hmeta : 2 ≤ line.length ∧ line.get? 0 = some '#'
      · rw [if_pos hmeta] at hok
        by_cases hmark : (line.get? 1).getD ' ' = 'A' ∨ (line.get? 1).getD ' ' = 'D' ∨
            (line.get? 1).getD ' ' = 'C' ∨ (line.get? 1).getD ' ' = 'B' ∨
            (line.get? 1).getD ' ' = 'S' ∨ (line.get? 1).getD ' ' = 'L' ∨
            (line.get? 1).getD ' ' = 'U'
        · rw [if_pos hmark] at hok
          obtain ⟨ih1, ih2, ih3⟩ := ih (l + 1) y₀ rows₀ g hy₀ hok
          rw [sdkContent_cons_skip (sdkIsSkip_of_meta hmeta)]
          exact ⟨ih1, ih2, ih3⟩
        · rw [if_neg hmark] at hok
          cases hok
      · rw [if_neg hmeta] at hok
        by_cases hlen : line.length ≠ 9
        · rw [if_pos hlen] at hok
          cases hok
        · rw [if_neg hlen] at hok
          have hlen9 : line.length = 9 := by omega
          rcases hrow : parseSdkCells l line 0 (fun _ => none) with e | row
          · rw [hrow] at hok
            have hok' : (.error e : Except SudokuPuzzleError Sudoku) = .ok g := hok
            cases hok'
          · rw [hrow] at hok
            have hok' : (if 9 ≤ y₀ then
                  (.error (.TooManyRows (l + 1)) : Except SudokuPuzzleError Sudoku)
                else parseSdkLines rest (l + 1) (y₀ + 1) (updRow rows₀ y₀ row)) =
                .ok g := hok
            by_cases hy9 : 9 ≤ y₀
            · rw [if_pos hy9] at hok'
              cases hok'
            · rw [if_neg hy9] at hok'
              obtain ⟨ih1, ih2, ih3⟩ := ih (l + 1) (y₀ + 1) _ g (by omega) hok'
              have hblank' : isBlank line = false := by
                rcases hb : isBlank line with _ | _
                · rfl
                · exact absurd hb hblank
              rw [sdkContent_cons_keep (sdkIsSkip_false hblank' hmeta)]
              have hcells := parseSdkCells_ok line l 0 (fun _ => none) row
                (by omega) hrow
              refine ⟨?_, ?_, ?_⟩
              · intro yy hyy
                rw [ih1 yy (by omega)]
                unfold updRow
                funext x'
                rw [if_neg (by omega)]
              · simp only [List.length_cons]
                omega
              · intro yy hyy cl hcl x c hc
                by_cases hyeq : yy.val = y₀
                · have h0 : yy.val - y₀ = 0 := by omega
                  rw [h0] at hcl
                  have hcl' : line = cl := by
                    simpa using hcl
                  subst hcl'
                  have hgrow : g.rows yy = row := by
                    rw [ih1 yy (by omega)]
                    unfold updRow
                    funext x'
                    rw [if_pos hyeq]
                  rw [hgrow]
                  have h3 := hcells.2.2 x (by omega) c (by simpa using hc)
                  exact ⟨h3.1, h3.2⟩
                · have hsucc : yy.val - y₀ = (yy.val - (y₀ + 1)) + 1 := by omega
                  rw [hsucc] at hcl
                  exact ih3 yy (by omega) cl (by simpa using hcl) x c hc

/-- Splitting at a separator that does not occur yields the single
piece. -/
theorem splitOn_eq_single {sep : Char} :
    ∀ {cs : List Char}, (∀ c ∈ cs, c ≠ sep) → splitOn sep cs = [cs] := by
  intro cs
  induction cs with
  | nil =>
    intro _
    rfl
  | cons c cs ih =>
    intro h
    unfold splitOn
    rw [if_neg (h c (List.mem_cons_self _ _))]
    rw [ih fun c' hc' => h c' (List.mem_cons_of_mem _ hc')]

/-! ## Concrete grids used by the claims -/

/-- A complete, valid sudoku (each row a shifted copy of `1..9`). -/
def solvedGrid : Sudoku := gridOf [
  [some 1, some 2, some 3, some 4, some 5, some 6, some 7, some 8, some 9],
  [some 4, some 5, some 6, some 7, some 8, some 9, some 1, some 2, some 3],
  [some 7, some 8, some 9, some 1, some 2, some 3, some 4, some 5, some 6],
  [some 2, some 3, some 4, some 5, some 6, some 7, some 8, some 9, some 1],
  [some 5, some 6, some 7, some 8, some 9, some 1, some 2, some 3, some 4],
  [some 8, some 9, some 1, some 2, some 3, some 4, some 5, some 6, some 7],
  [some 3, some 4, some 5, some 6, some 7, some 8, some 9, some 1, some 2],
  [some 6, some 7, some 8, some 9, some 1, some 2, some 3, some 4, some 5],
  [some 9, some 1, some 2, some 3, some 4, some 5, some 6, some 7, some 8]]

/-- A well-formed, unsolvable grid (10 givens) on which the search dies
inside row 0: the blanks `(0,0)`, `(1,0)`, `(2,0)` cannot all be filled.
During the search the well-formed candidates are popped with scores
10, 11, 12, 11 in that order, so the best recorded grid ends at score 11
although a score-12 candidate was recorded before it. -/
def bestEffortGrid : Sudoku := gridOf [
  [none, none, none, some 4, some 5, some 6, some 7, some 8, some 9],
  [none, none, some 3],
  [],
  [some 3],
  [none, some 2],
  [],
  [none, some 3],
  [],
  []]

/-- An ill-formed grid: two `1`s in row 0. -/
def illFormedGrid : Sudoku := gridOf [[some 1, some 1]]

/-- Placing `7` at `(5, 1)` in this grid conflicts with `(1, 1)` in the
same row and with `(4, 0)` in the same box. -/
def c8Grid : Sudoku := gridOf [
  [none, none, none, none, some 7],
  [none, some 7]]

/-- The one-line `.sdk` file `"012345678"` parses to this grid: `'0'` is
stored as the literal value `0` in cell `(0, 0)`, not as a blank. -/
def sdkZeroGrid : Sudoku :=
  gridOf [[some 0, some 1, some 2, some 3, some 4, some 5, some 6, some 7, some 8]]

/-! ## The claims -/

/-- Claim C1: (code bug).  The claim says `run` on an unsolvable well-formed
grid returns a best-effort grid whose score is the maximum over the
explored well-formed candidates, with best-score bookkeeping on each pop.
The code initializes `best : (f64, Sudoku)` to the input and its score
but the update `best.1 = attempt` never updates `best.0`, so every
well-formed pop whose score beats the *input's* score overwrites the
recorded grid.  On `bestEffortGrid` the search pops well-formed
candidates of scores 10, 11, 12, 11 in that order (the score-12 one is
`(bestEffortGrid.setCell 0 0 2).setCell 1 0 1`), and the final,
lower-scoring one wins: `run` returns the score-11 grid
`bestEffortGrid.setCell 0 0 1`, not a maximum-score grid. -/
theorem claim_C1_best_effort_not_max_score :
    bestEffortGrid.is_well_formed = true ∧
    run bestEffortGrid = some (bestEffortGrid.setCell 0 0 1) ∧
    (bestEffortGrid.setCell 0 0 1).score = 11 ∧
    ((bestEffortGrid.setCell 0 0 2).setCell 1 0 1).is_well_formed = true ∧
    ((bestEffortGrid.setCell 0 0 2).setCell 1 0 1).score = 12 ∧
    Extends bestEffortGrid ((bestEffortGrid.setCell 0 0 2).setCell 1 0 1) := by
  decide

/-- Claim C2: (confirmed).  `well_formed(G)` returns `Ok` iff no two
distinct cells of `G` sharing a row, a column or a 3×3 box hold equal
non-blank values: the asymmetric earlier-cells-only check performed per
cell in row-major scan order misses no conflicting pair. -/
theorem claim_C2_well_formed_iff_no_conflicting_pair (g : Sudoku) :
    g.well_formed = .ok () ↔ ¬ g.HasConflict :=
  well_formed_ok_iff_no_conflict g

/-- Claim C3: (corrected).  As amended: `run_with_callback` returns
`Ok(None)` only if the callback answered stop somewhere; a callback that
never stops and never errors always yields some grid; and a callback
that stops at its first invocation yields `Ok(None)` *provided the input
is well-formed and not finished* — otherwise the callback is never
invoked and the input grid is returned (see the counterexample). -/
theorem claim_C3_cancellation_amended (E : Type)
    (cb : Nat → Sudoku → Except E Bool) (g : Sudoku) :
    ((∀ k a, cb k a = .ok true) → ∃ r, run_with_callback cb g = .ok (some r)) ∧
    (run_with_callback cb g = .ok none → ∃ k a, cb k a = .ok false) ∧
    (g.is_well_formed = true → g.is_finished = false → cb 0 g = .ok false →
      run_with_callback cb g = .ok none) :=
  ⟨fun hcb => run_with_callback_some_of_always_true hcb g,
   fun h => run_with_callback_none_imp_stop h,
   fun hwf hfin hstop => run_with_callback_stop_first hwf hfin hstop⟩

/-- Claim C3: counterexample.  The claim says a callback that returns stop
on its first invocation causes `run_with_callback` to return no result,
for *every* input grid.  On an already finished input the search breaks
before the callback is ever invoked and the grid is returned: with the
constant-stop callback the result is `Ok(Some(grid))`, not `Ok(None)`. -/
theorem claim_C3_counterexample :
    run_with_callback (fun _ _ => (.ok false : Except Unit Bool)) solvedGrid =
      .ok (some solvedGrid) := by
  decide

/-- Claim C4: (code bug).  The claim says a `.sdx` line with more than nine
space-separated cell tokens yields a clean parse error.  The guard
`if x >= 9 {  }` in `parse_sudoku_puzzle_progress` has an empty body, so
the tenth token reaches `row[x]` with `x = 9` and the 9-element row is
indexed out of bounds — a panic, not an error return. -/
theorem claim_C4_sdx_ten_cells_panics :
    parse_sudoku_puzzle_progress ("1 2 3 4 5 6 7 8 9 1".toList) = .panicked := by
  decide

/-- Claim C5: (confirmed).  A finished input is returned unchanged, by
`run` and by `run_with_callback` under *every* callback — which also
certifies that the search terminates on the first pop: the callback is
never consulted and nothing further is explored. -/
theorem claim_C5_finished_input_unchanged (g : Sudoku) (h : g.is_finished = true) :
    run g = some g ∧
    ∀ (E : Type) (cb : Nat → Sudoku → Except E Bool),
      run_with_callback cb g = .ok (some g) := by
  constructor
  · unfold run
    rw [run_with_callback_finished _ h]
  · intro E cb
    exact run_with_callback_finished cb h

theorem claim_C5_witness :
    solvedGrid.is_finished = true ∧ run solvedGrid = some solvedGrid ∧
      run_with_callback (fun _ _ => (.error () : Except Unit Bool)) solvedGrid =
        .ok (some solvedGrid) :=
  ⟨by decide, (claim_C5_finished_input_unchanged solvedGrid (by decide)).1,
    (claim_C5_finished_input_unchanged solvedGrid (by decide)).2 Unit _⟩

/-- Claim C6: (corrected).  As amended: a non-separator `.ss` line with
more than 11 characters is an error, and a line of *at most* 11
characters is accepted whenever its characters at raw positions 3 and 7
(when present) are `'|'` and all others are digits or `'.'` — the parser
never requires the line to be exactly 11 characters long, so short lines
pass with their missing trailing cells left blank (see the
counterexample). -/
theorem claim_C6_row_length_amended (l : Nat) (cs : List Char)
    (row : Fin 9 → Option Nat) :
    (11 < cs.length → ∃ e, ssRowCells l cs 0 row = .error e) ∧
    (cs.length ≤ 11 →
      (∀ j c, cs.get? j = some c →
        ((j = 3 ∨ j = 7) → c = '|') ∧
        (¬(j = 3 ∨ j = 7) → isAsciiDigit c = true ∨ c = '.')) →
      (∃ row', ssRowCells l cs 0 row = .ok row') ∧
      ∃ g, parse_simple_sudoku_new cs = .ok g) := by
  have hok : cs.length ≤ 11 →
      (∀ j c, cs.get? j = some c →
        ((j = 3 ∨ j = 7) → c = '|') ∧
        (¬(j = 3 ∨ j = 7) → isAsciiDigit c = true ∨ c = '.')) →
      ∀ row₀ l₀, ∃ row', ssRowCells l₀ cs 0 row₀ = .ok row' := by
    intro hlen hgood row₀ l₀
    refine ssRowCells_ok_of_good cs l₀ 0 row₀ (by omega) ?_
    intro j c hj
    simpa using hgood j c hj
  constructor
  · intro hlong
    exact ssRowCells_err_of_long cs l 0 row (by omega) (by omega)
  · intro hlen hgood
    refine ⟨hok hlen hgood row l, ?_⟩
    have hnl : ∀ c ∈ cs, c ≠ Char.ofNat 10 := by
      intro c hc hceq
      obtain ⟨j, hj⟩ := List.get?_of_mem hc
      have := hgood j c hj
      by_cases hsep : j = 3 ∨ j = 7
      · have := this.1 hsep
        rw [hceq] at this
        exact absurd this (by decide)
      · rcases this.2 hsep with hdig | hdot
        · rw [hceq] at hdig
          exact absurd hdig (by decide)
        · rw [hceq] at hdot
          exact absurd hdot (by decide)
    unfold parse_simple_sudoku_new
    rw [splitOn_eq_single hnl]
    obtain ⟨row', hrow'⟩ := hok hlen hgood (fun _ => none) 0
    unfold ssLines
    rw [if_neg (by omega), hrow']
    exact ⟨_, rfl⟩

/-- Claim C6: counterexample.  The claim says any non-separator line whose
character count differs from 11 causes a parse error; but the 3-character
file `"123"` is accepted, producing a grid whose first row starts
`1, 2, 3` with every other cell blank. -/
theorem claim_C6_counterexample :
    parse_simple_sudoku_new ("123".toList) =
      .ok (gridOf [[some 1, some 2, some 3]]) := by
  decide

/-- Claim C7: (confirmed).  In a successfully parsed `.sdk` file, the `j`-th
content line (non-blank, non-metadata) fills grid row `j`: a digit
character is stored as its literal value — in particular `'0'` is stored
as the value `0`, a filled cell — and only `'.'` produces a blank
cell. -/
theorem claim_C7_sdk_zero_literal (raw : List Char) (g : Sudoku)
    (h : parse_sudoku_puzzle raw = .ok g) :
    ∀ (y x : Fin 9) (cl : List Char) (c : Char),
      (sdkContent (splitOn '\n' raw)).get? y.val = some cl →
      cl.get? x.val = some c →
      (isAsciiDigit c = true → g.rows y x = some (digitVal c)) ∧
      (c = '0' → g.rows y x = some 0) ∧
      (c = '.' → g.rows y x = none) := by
  unfold parse_sudoku_puzzle at h
  obtain ⟨-, -, h3⟩ := parseSdkLines_ok _ 0 0 _ g (by omega) h
  intro y x cl c hcl hc
  have hcell := h3 y (Nat.zero_le _) cl (by simpa using hcl) x c hc
  refine ⟨hcell.1, ?_, hcell.2⟩
  intro h0
  subst h0
  exact (hcell.1 (by decide)).trans (by decide)

theorem claim_C7_witness :
    parse_sudoku_puzzle ("012345678".toList) = .ok sdkZeroGrid ∧
      sdkZeroGrid.rows 0 0 = some 0 :=
  ⟨by decide,
    (claim_C7_sdk_zero_literal ("012345678".toList) sdkZeroGrid (by decide) 0 0
      ("012345678".toList) '0' (by decide) (by decide)).2.1 rfl⟩

/-- Claim C8: (confirmed).  `cell_valid` reports the first conflict in
row → column → box priority order, and within each direction the one
with the least index: the least conflicting earlier row cell wins
outright; a column conflict is reported only when the row scan is clean;
a box conflict only when both are clean. -/
theorem claim_C8_conflict_priority (s : Sudoku) (x y value : Nat)
    (_hx : x < 9) (_hy : y < 9) :
    (∀ i, i < x → s.cell i y = some value →
      (∀ j < i, s.cell j y ≠ some value) →
      s.cell_valid x y value = .error (.RowConflict (x, y) (i, y))) ∧
    (∀ i, (∀ j < x, s.cell j y ≠ some value) → i < y → s.cell x i = some value →
      (∀ j < i, s.cell x j ≠ some value) →
      s.cell_valid x y value = .error (.ColConflict (x, y) (x, i))) ∧
    (∀ i, (∀ j < x, s.cell j y ≠ some value) → (∀ j < y, s.cell x j ≠ some value) →
      i < (y % 3) * 3 + x % 3 →
      s.cell (3 * (x / 3) + i % 3) (3 * (y / 3) + i / 3) = some value →
      (∀ j < i, s.cell (3 * (x / 3) + j % 3) (3 * (y / 3) + j / 3) ≠ some value) →
      s.cell_valid x y value =
        .error (.BoxConflict (x, y) (3 * (x / 3) + i % 3, 3 * (y / 3) + i / 3))) :=
  ⟨fun _ hi hc hl => cell_valid_row_conflict hi hc hl,
   fun _ hrow hi hc hl => cell_valid_col_conflict hrow hi hc hl,
   fun _ hrow hcol hi hc hl => cell_valid_box_conflict hrow hcol hi hc hl⟩

/-- Claim C8: witness: placing `7` at `(5, 1)` in `c8Grid` has both a row
conflict (at `(1, 1)`) and a box conflict (at `(4, 0)`); the row conflict
is reported. -/
theorem claim_C8_witness :
    c8Grid.cell_valid 5 1 7 = .error (.RowConflict (5, 1) (1, 1)) :=
  (claim_C8_conflict_priority c8Grid 5 1 7 (by decide) (by decide)).1 1
    (by decide) (by decide) (by decide)

/-- Claim C9: (confirmed).  Whenever `run_with_callback` returns a grid,
that grid extends the input: every filled cell of the input holds the
same value in the result, so the result differs from the input only by
filling cells that were empty — no clue is overwritten or erased. -/
theorem claim_C9_result_extends_input (E : Type)
    (cb : Nat → Sudoku → Except E Bool) (g r : Sudoku)
    (h : run_with_callback cb g = .ok (some r)) : Extends g r :=
  run_with_callback_extends h

theorem claim_C9_witness :
    run_with_callback (fun _ _ => (.ok true : Except Unit Bool)) bestEffortGrid =
        .ok (some (bestEffortGrid.setCell 0 0 1)) ∧
      Extends bestEffortGrid (bestEffortGrid.setCell 0 0 1) :=
  ⟨by decide,
    claim_C9_result_extends_input Unit (fun _ _ => .ok true) bestEffortGrid
      (bestEffortGrid.setCell 0 0 1) (by decide)⟩

/-- Claim C10: (confirmed).  An input that is not well-formed is popped,
discarded without any expansion, and the initial best — the input grid
itself — is returned as `Ok(Some(input))`; the result holds for *every*
callback, certifying that the progress callback is never invoked. -/
theorem claim_C10_ill_formed_input_returned (E : Type)
    (cb : Nat → Sudoku → Except E Bool) (g : Sudoku)
    (h : g.is_well_formed = false) :
    run_with_callback cb g = .ok (some g) :=
  run_with_callback_ill_formed cb h

theorem claim_C10_witness :
    illFormedGrid.is_well_formed = false ∧
      run_with_callback (fun _ _ => (.error () : Except Unit Bool)) illFormedGrid =
        .ok (some illFormedGrid) :=
  ⟨by decide,
    claim_C10_ill_formed_input_returned Unit (fun _ _ => .error ()) illFormedGrid
      (by decide)⟩

end SudokuRs
